import Mathlib

/-! Verification development for the single-spa CSS lifecycle adapter
(`src/single-spa-css.ts`).  The TypeScript source is shallowly embedded:
DOM link elements become records carrying a node identity, the document
head becomes a list of such records in document order, the
`linkElements` registry becomes an association list keyed by URL, and
the three lifecycle functions become state transformers.  Promise wiring
is made explicit: each per-URL mount promise records which DOM events on
its element resolve it and which reject it. -/

namespace SingleSpaCss

/-- A DOM link element.  `id` models DOM node identity (two distinct
`createElement` calls yield distinct nodes); `rel`, `href` and the `as`
attribute are the attributes the source reads and writes. -/
structure Element where
  id : Nat
  rel : String
  href : String
  asAttr : Option String
  deriving DecidableEq

/-- A JavaScript value sitting in a boolean position: `true`, `false`, or
`undefined` (a structured record can carry an `undefined` property). -/
inductive BVal
  | tt
  | ff
  | undef
  deriving DecidableEq

/-- JS truthiness of a `BVal`: only `true` is truthy. -/
def BVal.truthy : BVal → Bool
  | .tt => true
  | _ => false

/-- Injection of a Lean `Bool` into `BVal`. -/
def boolToBVal (b : Bool) : BVal :=
  if b then .tt else .ff

/-- The `shouldUnmount` property slot of a structured stylesheet record:
absent entirely, or present with a value; `hasOwnProperty` (source line
171) distinguishes the two even when the present value is `undefined`. -/
inductive SUProp
  | absent
  | given (v : BVal)
  deriving DecidableEq

/-- The `CssUrl` input shape (source lines 189-194): a bare URL string or
a structured record; at runtime the record's `shouldUnmount` property may
also be absent or `undefined`. -/
inductive CssUrl
  | str (s : String)
  | obj (href : String) (shouldUnmount : SUProp)
  deriving DecidableEq

/-- The effective configuration after `Object.assign({}, defaultOptions,
_opts)` (source lines 35-39).  `createLink` is the pluggable element
factory; it receives the URL and, in this model, a fresh node identity. -/
structure Opts where
  cssUrls : List CssUrl
  webpackExtractedCss : Bool
  timeout : Nat
  shouldUnmount : Bool
  createLink : String → Nat → Element

/-- The default `createLink` factory (source lines 8-13): create a link
element, set its `href` to the URL and its `rel` to the stylesheet
relation. -/
def defaultCreateLink (url : String) (i : Nat) : Element :=
  { id := i, rel := "stylesheet", href := url, asAttr := none }

/-- `defaultOptions` (source lines 3-14). -/
def defaultOptions : Opts :=
  { cssUrls := []
    webpackExtractedCss := false
    timeout := 5000
    shouldUnmount := true
    createLink := defaultCreateLink }

/-- The caller-supplied configuration: only `cssUrls` is required, every
other field is optional (source lines 181-187). -/
structure UserOpts where
  cssUrls : List CssUrl
  webpackExtractedCss : Option Bool := none
  timeout : Option Nat := none
  shouldUnmount : Option Bool := none
  createLink : Option (String → Nat → Element) := none

/-- `Object.assign({}, defaultOptions, _opts)` (source lines 35-39):
fields present in the user configuration override the defaults. -/
def resolveOpts (u : UserOpts) : Opts :=
  { cssUrls := u.cssUrls
    webpackExtractedCss := u.webpackExtractedCss.getD defaultOptions.webpackExtractedCss
    timeout := u.timeout.getD defaultOptions.timeout
    shouldUnmount := u.shouldUnmount.getD defaultOptions.shouldUnmount
    createLink := u.createLink.getD defaultOptions.createLink }

/-- Effective configuration built from a configuration that sets only the
required `cssUrls` field. -/
def mkOpts (us : List CssUrl) : Opts :=
  resolveOpts { cssUrls := us }

/-- Contents of the `allCssUrls` array after construction (source lines
41-53).  `Object.assign` copies the `cssUrls` field shallowly, so
`opts.cssUrls` is the caller's own array object and `allCssUrls` is
another alias of it; when `webpackExtractedCss` is set, the `push` on
line 46 appends the webpack-supplied URLs to that shared array in place.
`publicPath`, `cssAssets` and `cssAssetFileName` stand for the external
webpack capabilities `__webpack_public_path__`,
`__webpack_require__.cssAssets` and
`__webpack_require__.cssAssetFileName`. -/
def mergedCssUrls (u : UserOpts) (publicPath : String) (cssAssets : List String)
    (cssAssetFileName : String → String) : List CssUrl :=
  if (resolveOpts u).webpackExtractedCss then
    u.cssUrls ++ cssAssets.map (fun f => CssUrl.str (publicPath ++ cssAssetFileName f))
  else
    u.cssUrls

/-- Observable result of running the body of `singleSpaCss` (source lines
27-53) up to the point where it returns the lifecycle closures.  Because
`allCssUrls` aliases the caller's `cssUrls` array (see `mergedCssUrls`),
the caller's array contents after construction (`callerCssUrlsAfter`)
coincide with `allCssUrls`: the in-place `push` is visible to the caller
whenever the webpack toggle is on. -/
structure ConstructResult where
  opts : Opts
  allCssUrls : List CssUrl
  callerCssUrlsAfter : List CssUrl

/-- `singleSpaCss` construction (source lines 27-53). -/
def singleSpaCss (u : UserOpts) (publicPath : String) (cssAssets : List String)
    (cssAssetFileName : String → String) : ConstructResult :=
  { opts := { resolveOpts u with cssUrls := mergedCssUrls u publicPath cssAssets cssAssetFileName }
    allCssUrls := mergedCssUrls u publicPath cssAssets cssAssetFileName
    callerCssUrlsAfter := mergedCssUrls u publicPath cssAssets cssAssetFileName }

/-- Raw construction input, for the validation claim: a well-typed
configuration object, a non-object value, or an object whose `cssUrls`
field is not an array (`objBadCssUrls` keeps the `webpackExtractedCss`
field such an object may carry). -/
inductive RawConfig
  | obj (u : UserOpts)
  | nonObject
  | objBadCssUrls (webpackExtractedCss : Option Bool)

/-- Synchronous outcome of running the body of `singleSpaCss` on raw
input.  The source performs no validation: lines 30-31 are comments
only.  On a non-object, `Object.assign({}, defaultOptions, x)` ignores
or spreads the value without throwing and every option keeps its
default, so construction returns the lifecycles normally.  On an object
whose `cssUrls` is not an array, construction also returns normally
unless `webpackExtractedCss` is set, in which case line 46 throws a
`TypeError` (`push` is not a function on a non-array) — a runtime type
error, not a validation error. -/
def constructRaw : RawConfig → Except String Unit
  | .obj _ => .ok ()
  | .nonObject => .ok ()
  | .objBadCssUrls w =>
    if w.getD false then .error ("TypeError: allCssUrls.push is not a function") else .ok ()

/-- `extractUrl` (source lines 165-176): a bare string yields the string
and the configuration-level default flag; a structured record yields its
`href` and its own `shouldUnmount` value whenever the property is
present (`hasOwnProperty`), even when that value is `undefined`, and the
configuration-level default only when the property is absent. -/
def extractUrl (opts : Opts) : CssUrl → String × BVal
  | .str s => (s, boolToBVal opts.shouldUnmount)
  | .obj href p =>
    match p with
    | .given v => (href, v)
    | .absent => (href, boolToBVal opts.shouldUnmount)

/-- Promise wiring of one per-URL mount promise: which DOM events on the
link element resolve it and which reject it. -/
structure Wiring where
  resolveEvents : List String
  rejectEvents : List String
  deriving DecidableEq

/-- The wiring installed by `mount` for a newly created element (source
lines 124-126): a single listener resolving on the load event; nothing
is wired to reject. -/
def loadWiring : Wiring :=
  { resolveEvents := ["load"], rejectEvents := [] }

/-- Per-URL mount outcome: the element was adopted (promise resolved
synchronously) or created (promise pending on its wiring). -/
inductive UrlOutcome
  | adopted (el : Element)
  | created (el : Element) (w : Wiring)
  deriving DecidableEq

/-- Adapter-instance state: the document head contents in document order,
the `linkElements` registry (source line 56), the
`linkElementsToUnmount` queue (source line 58), a fresh node-identity
counter, and the per-URL outcomes of the most recent mount call. -/
structure MState where
  doc : List Element
  reg : List (String × Element)
  queue : List (Element × String)
  fresh : Nat
  outcomes : List (String × UrlOutcome)
  deriving DecidableEq

/-- Fresh adapter state: registry and queue start empty. -/
def emptyMState : MState :=
  { doc := [], reg := [], queue := [], fresh := 0, outcomes := [] }

/-- JS object property read, as in `linkElements[url]`. -/
def lookupReg : List (String × Element) → String → Option Element
  | [], _ => none
  | p :: rest, url => if p.1 == url then some p.2 else lookupReg rest url

/-- JS object property write, as in `linkElements[url] = el`: overwrite
the existing key or append a new one. -/
def insertReg : List (String × Element) → String → Element → List (String × Element)
  | [], url, el => [(url, el)]
  | p :: rest, url, el =>
    if p.1 == url then (url, el) :: rest else p :: insertReg rest url el

/-- JS property removal, as in `delete linkElements[url]` (source line 155). -/
def deleteReg : List (String × Element) → String → List (String × Element)
  | [], _ => []
  | p :: rest, url => if p.1 == url then deleteReg rest url else p :: deleteReg rest url

/-- The stylesheet attribute selector used by `mount` (source line 114). -/
def isStylesheet (url : String) (e : Element) : Bool :=
  e.rel == "stylesheet" && e.href == url

/-- `document.querySelector` on the stylesheet selector: first match in
document order. -/
def findStylesheet (doc : List Element) (url : String) : Option Element :=
  doc.find? (isStylesheet url)

/-- The preload attribute selector used by `bootstrap` (source line 76). -/
def isPreloadFor (url : String) (e : Element) : Bool :=
  e.rel == "preload" && e.asAttr == some ("style") && e.href == url

/-- One iteration of the `mount` fan-out (source lines 109-134): adopt an
existing stylesheet element for the URL, or create one via the factory,
wire its load listener, record it in the registry, append it to the
document, and queue it for unmount when the extracted flag is truthy. -/
def mountStep (opts : Opts) (s : MState) (c : CssUrl) : MState :=
  match findStylesheet s.doc (extractUrl opts c).1 with
  | some ex =>
    { s with
        reg := insertReg s.reg (extractUrl opts c).1 ex
        outcomes := s.outcomes ++ [((extractUrl opts c).1, UrlOutcome.adopted ex)] }
  | none =>
    { s with
        reg := insertReg s.reg (extractUrl opts c).1 (opts.createLink (extractUrl opts c).1 s.fresh)
        doc := s.doc ++ [opts.createLink (extractUrl opts c).1 s.fresh]
        queue :=
          if ((extractUrl opts c).2).truthy then
            s.queue ++ [(opts.createLink (extractUrl opts c).1 s.fresh, (extractUrl opts c).1)]
          else
            s.queue
        fresh := s.fresh + 1
        outcomes :=
          s.outcomes ++
            [((extractUrl opts c).1,
              UrlOutcome.created (opts.createLink (extractUrl opts c).1 s.fresh) loadWiring)] }

/-- The `mount` fan-out over a URL list; the Promise executors run
synchronously in list order. -/
def mountGo (opts : Opts) (urls : List CssUrl) (s : MState) : MState :=
  urls.foldl (mountStep opts) s

/-- `mount` (source lines 106-137): process every URL; the outcome list
describes this call's per-URL promises. -/
def mount (opts : Opts) (urls : List CssUrl) (s : MState) : MState :=
  mountGo opts urls { s with outcomes := [] }

/-- One iteration of the `bootstrap` fan-out (source lines 71-94): ensure
a preload hint element exists for the URL; never waits for the preload. -/
def bootstrapStep (opts : Opts) (s : List Element × Nat) (c : CssUrl) : List Element × Nat :=
  match s.1.find? (isPreloadFor (extractUrl opts c).1) with
  | some _ => s
  | none =>
    (s.1 ++ [{ id := s.2, rel := "preload", href := (extractUrl opts c).1, asAttr := some ("style") }],
      s.2 + 1)

/-- `bootstrap` (source lines 68-97) as a document transformer. -/
def bootstrapGo (opts : Opts) (urls : List CssUrl) (s : List Element × Nat) : List Element × Nat :=
  urls.foldl (bootstrapStep opts) s

/-- The synchronous head of `unmount` (source lines 146-150): read the
queue and reset it to the empty array in one synchronous step, before
any removal work is scheduled. -/
def unmountClaim (s : MState) : MState × List (Element × String) :=
  ({ s with queue := [] }, s.queue)

/-- Processing of one claimed pair (source lines 153-159): delete the
registry key, then detach the element if it is still in the document. -/
def unmountStep (s : MState) (p : Element × String) : MState :=
  { s with
      reg := deleteReg s.reg p.2
      doc :=
        if s.doc.any (fun e => e.id == p.1.id) then
          s.doc.filter (fun e => !(e.id == p.1.id))
        else
          s.doc }

/-- `unmount` (source lines 145-162): claim-and-clear, then process each
claimed pair; also returns the claimed list (the work this call did). -/
def unmountFull (s : MState) : MState × List (Element × String) :=
  ((unmountClaim s).2.foldl unmountStep (unmountClaim s).1, (unmountClaim s).2)

/-- Whether a promise with the given wiring has settled once the listed
events have fired on its element. -/
def settledBy (w : Wiring) (fired : List String) : Bool :=
  w.resolveEvents.any (fun ev => fired.contains ev) ||
    w.rejectEvents.any (fun ev => fired.contains ev)

/-- Whether one per-URL mount promise has settled, given the events fired
on each element (by node identity). -/
def outcomeSettled (fired : Nat → List String) : String × UrlOutcome → Bool
  | (_, .adopted _) => true
  | (_, .created el w) => settledBy w (fired el.id)

/-- Whether the composite `Promise.all` of a mount call has settled: with
no rejection wiring anywhere it settles only when every per-URL promise
has. -/
def mountSettled (fired : Nat → List String) (outs : List (String × UrlOutcome)) : Bool :=
  outs.all (outcomeSettled fired)

/-- The record of lifecycle closures returned by `singleSpaCss` (source
line 178). -/
structure Lifecycles where
  bootstrap : List Element × Nat → List Element × Nat
  mount : MState → MState
  unmount : MState → MState × List (Element × String)

/-- The three lifecycle closures over a fixed effective configuration and
URL list. -/
def lifecyclesOf (opts : Opts) (allCssUrls : List CssUrl) : Lifecycles :=
  { bootstrap := fun s => bootstrapGo opts allCssUrls s
    mount := fun s => mount opts allCssUrls s
    unmount := fun s => unmountFull s }

/-- Every outcome recorded for `url` is adoption of the element `el`. -/
def adoptedOnly (url : String) (el : Element) (outs : List (String × UrlOutcome)) : Prop :=
  ∀ o ∈ outs, o.1 = url → o.2 = UrlOutcome.adopted el

/-- The pair `p` was created by the adapter itself (a created outcome for
it is on record) from a source reference whose extracted `shouldUnmount`
flag is truthy. -/
def createdTruthySource (opts : Opts) (urls : List CssUrl) (outs : List (String × UrlOutcome))
    (p : Element × String) : Prop :=
  (∃ w, (p.2, UrlOutcome.created p.1 w) ∈ outs) ∧
    ∃ c, c ∈ urls ∧ (extractUrl opts c).1 = p.2 ∧ ((extractUrl opts c).2).truthy = true

/-- Fixture: a stylesheet element already present in the document. -/
def c1El : Element :=
  { id := 7, rel := "stylesheet", href := "a.css", asAttr := none }

/-- Fixture: a document that already contains `c1El`, with empty
registry and queue. -/
def c1St : MState :=
  { doc := [c1El], reg := [], queue := [], fresh := 0, outcomes := [] }

/-- Fixture: the element the default factory creates first. -/
def c3El : Element :=
  { id := 0, rel := "stylesheet", href := "a.css", asAttr := none }

/-- Fixture: one plain reference and one record with `shouldUnmount`
explicitly `false`. -/
def c4Urls : List CssUrl :=
  [CssUrl.str ("a.css"), CssUrl.obj ("b.css") (SUProp.given BVal.ff)]

/-- Fixture: the queue entry `mount` creates for the plain reference in
`c4Urls`. -/
def c4P : Element × String :=
  ({ id := 0, rel := "stylesheet", href := "a.css", asAttr := none }, "a.css")

/-- Fixture: a single record with `shouldUnmount` present but
`undefined`. -/
def c10Urls : List CssUrl :=
  [CssUrl.obj ("b.css") (SUProp.given BVal.undef)]

theorem find_append_some {α : Type} (p : α → Bool) (l l2 : List α) (a : α)
    (h : l.find? p = some a) : (l ++ l2).find? p = some a := by
  rw [List.find?_append, h]
  rfl

theorem filter_append_false {α : Type} (p : α → Bool) (l : List α) (x : α)
    (h : p x = false) : (l ++ [x]).filter p = l.filter p := by
  rw [List.filter_append]
  simp [List.filter_cons, h]

theorem all_false_of_mem {α : Type} {l : List α} {p : α → Bool} {x : α}
    (hx : x ∈ l) (hp : p x = false) : l.all p = false := by
  cases h : l.all p with
  | false => rfl
  | true => rw [List.all_eq_true] at h; rw [h x hx] at hp; cases hp

theorem all_ne_of_forall (l : List (Element × String)) (url : String)
    (h : ∀ q ∈ l, q.2 ≠ url) : l.all (fun q => !(q.2 == url)) = true := by
  rw [List.all_eq_true]
  intro q hql
  simpa using h q hql

theorem lookupReg_insert_self (r : List (String × Element)) (u : String) (x : Element) :
    lookupReg (insertReg r u x) u = some x := by
  induction r with
  | nil => simp [insertReg, lookupReg]
  | cons p rest ih =>
    cases h : p.1 == u with
    | true => simp [insertReg, h, lookupReg]
    | false => simp [insertReg, h, lookupReg, ih]

theorem lookupReg_insert_ne (r : List (String × Element)) (u v : String) (x : Element)
    (huv : u ≠ v) : lookupReg (insertReg r v x) u = lookupReg r u := by
  have hvu : (v == u) = false := beq_eq_false_iff_ne.mpr fun hh => huv hh.symm
  induction r with
  | nil => simp [insertReg, lookupReg, hvu]
  | cons p rest ih =>
    cases h : p.1 == v with
    | true =>
      have hp : p.1 = v := eq_of_beq h
      have hpu : (p.1 == u) = false := by rw [hp]; exact hvu
      simp [insertReg, h, lookupReg, hpu, hvu]
    | false =>
      cases hpu : p.1 == u with
      | true => simp [insertReg, h, lookupReg, hpu]
      | false => simp [insertReg, h, lookupReg, hpu, ih]

theorem mountStep_found (opts : Opts) (s : MState) (c : CssUrl) (ex : Element)
    (h : findStylesheet s.doc (extractUrl opts c).1 = some ex) :
    mountStep opts s c =
      { s with
          reg := insertReg s.reg (extractUrl opts c).1 ex
          outcomes := s.outcomes ++ [((extractUrl opts c).1, UrlOutcome.adopted ex)] } := by
  unfold mountStep
  rw [h]

theorem mountStep_new (opts : Opts) (s : MState) (c : CssUrl)
    (h : findStylesheet s.doc (extractUrl opts c).1 = none) :
    mountStep opts s c =
      { s with
          reg := insertReg s.reg (extractUrl opts c).1 (opts.createLink (extractUrl opts c).1 s.fresh)
          doc := s.doc ++ [opts.createLink (extractUrl opts c).1 s.fresh]
          queue :=
            if ((extractUrl opts c).2).truthy then
              s.queue ++ [(opts.createLink (extractUrl opts c).1 s.fresh, (extractUrl opts c).1)]
            else
              s.queue
          fresh := s.fresh + 1
          outcomes :=
            s.outcomes ++
              [((extractUrl opts c).1,
                UrlOutcome.created (opts.createLink (extractUrl opts c).1 s.fresh) loadWiring)] } := by
  unfold mountStep
  rw [h]

theorem mountGo_nil (opts : Opts) (s : MState) : mountGo opts [] s = s := rfl

theorem mountGo_cons (opts : Opts) (c : CssUrl) (urls : List CssUrl) (s : MState) :
    mountGo opts (c :: urls) s = mountGo opts urls (mountStep opts s c) := rfl

theorem unmountFull_eq (s : MState) :
    unmountFull s = (s.queue.foldl unmountStep { s with queue := [] }, s.queue) := rfl

theorem unmount_foldl_queue (l : List (Element × String)) :
    ∀ s : MState, (l.foldl unmountStep s).queue = s.queue := by
  induction l with
  | nil => intro s; rfl
  | cons p rest ih =>
    intro s
    rw [List.foldl_cons, ih]
    rfl

theorem mstate_queue_nil_eq (s : MState) (h : s.queue = []) :
    ({ s with queue := [] } : MState) = s := by
  cases s
  simp_all

/-- Claim C2: for every state of the pending-unmount queue, calling
unmount twice in immediate succession removes each queued element
exactly once: the first call claims exactly the old queue and
synchronously replaces the queue with an empty sequence before any
removal work, so the second call — even one whose claim interleaves
before the first call's removal work — observes an empty queue, claims
nothing, and leaves the state entirely unchanged (no registry deletions,
no document mutations). -/
theorem unmount_at_most_once (s : MState) :
    (unmountFull s).2 = s.queue ∧
    (unmountClaim s).1.queue = [] ∧
    (unmountClaim (unmountClaim s).1).2 = [] ∧
    (unmountFull (unmountFull s).1).2 = [] ∧
    (unmountFull (unmountFull s).1).1 = (unmountFull s).1 := by
  have hq : (unmountFull s).1.queue = [] := by
    rw [unmountFull_eq]
    exact unmount_foldl_queue s.queue { s with queue := [] }
  refine ⟨rfl, rfl, rfl, ?_, ?_⟩
  · rw [unmountFull_eq]
    exact hq
  · rw [unmountFull_eq]
    show (unmountFull s).1.queue.foldl unmountStep { (unmountFull s).1 with queue := [] } =
      (unmountFull s).1
    rw [hq, List.foldl_nil]
    exact mstate_queue_nil_eq _ hq

/-- Claim C6: the URL extractor returns, for a bare string, the string
itself paired with the configuration-level default flag; for a
structured record, its href paired with the record's own `shouldUnmount`
value when that property is explicitly present, and the
configuration-level default otherwise. -/
theorem extractUrl_correct (opts : Opts) :
    (∀ s, extractUrl opts (CssUrl.str s) = (s, boolToBVal opts.shouldUnmount)) ∧
    (∀ h v, extractUrl opts (CssUrl.obj h (SUProp.given v)) = (h, v)) ∧
    (∀ h, extractUrl opts (CssUrl.obj h SUProp.absent) = (h, boolToBVal opts.shouldUnmount)) :=
  ⟨fun _ => rfl, fun _ _ => rfl, fun _ => rfl⟩

/-- Claim C8: resolving a configuration that sets only the required
`cssUrls` field fills every optional field with its documented default:
`webpackExtractedCss` false, `timeout` 5000, `shouldUnmount` true, and
the default factory, which builds a link element with the stylesheet
relation and the given URL as `href`. -/
theorem defaults_resolved (us : List CssUrl) :
    (mkOpts us).cssUrls = us ∧
    (mkOpts us).webpackExtractedCss = false ∧
    (mkOpts us).timeout = 5000 ∧
    (mkOpts us).shouldUnmount = true ∧
    (mkOpts us).createLink = defaultCreateLink ∧
    ∀ url i, (mkOpts us).createLink url i =
      { id := i, rel := "stylesheet", href := url, asAttr := none } :=
  ⟨rfl, rfl, rfl, rfl, rfl, fun _ _ => rfl⟩

/-- Claim C9: two configurations differing only in their timeout value
yield literally identical bootstrap, mount and unmount lifecycle
functions: the timeout value is never consulted by any stage. -/
theorem timeout_never_consulted (o : Opts) (t : Nat) (urls : List CssUrl) :
    lifecyclesOf { o with timeout := t } urls = lifecyclesOf o urls := rfl

/-- Counterexample to claim C7: construction raises no validation error
on malformed input — a non-object input and an object whose `cssUrls` is
not a sequence both construct successfully. -/
theorem no_validation_counterexample :
    constructRaw RawConfig.nonObject = Except.ok () ∧
    constructRaw (RawConfig.objBadCssUrls none) = Except.ok () :=
  ⟨rfl, rfl⟩

/-- Claim C7 as amended: construction performs no input validation; a
non-object input, and an object whose `cssUrls` field is not a sequence
(whenever the webpack toggle resolves to false, its default), construct
successfully with no error raised — the stated validation contract is
not enforced. -/
theorem construction_never_validates (w : Option Bool) (h : w.getD false = false) :
    constructRaw (RawConfig.objBadCssUrls w) = Except.ok () ∧
    constructRaw RawConfig.nonObject = Except.ok () ∧
    ∀ u, constructRaw (RawConfig.obj u) = Except.ok () := by
  refine ⟨?_, rfl, fun _ => rfl⟩
  simp [constructRaw, h]

/-- Witness for `construction_never_validates` at the concrete input
`objBadCssUrls none`. -/
theorem construction_never_validates_witness :
    (none : Option Bool).getD false = false ∧
    constructRaw (RawConfig.objBadCssUrls none) = Except.ok () :=
  ⟨rfl, (construction_never_validates none rfl).1⟩

/-- Counterexample to claim C5: with the webpack toggle enabled,
construction pushes the build-pipeline URLs into the caller's own
`cssUrls` array (`Object.assign` copies the array reference and `push`
mutates it), so the caller's configuration is changed by construction. -/
theorem construction_mutates_caller :
    (singleSpaCss { cssUrls := [CssUrl.str ("a.css")], webpackExtractedCss := some true }
        ("/p/") [("m.css")] (fun f => f)).callerCssUrlsAfter =
      [CssUrl.str ("a.css"), CssUrl.str ("/p/m.css")] ∧
    (singleSpaCss { cssUrls := [CssUrl.str ("a.css")], webpackExtractedCss := some true }
        ("/p/") [("m.css")] (fun f => f)).callerCssUrlsAfter ≠ [CssUrl.str ("a.css")] := by
  constructor
  · rfl
  · decide

/-- Claim C5 as amended: construction leaves the caller's `cssUrls`
sequence unchanged whenever the webpack toggle resolves to false (its
default); when the toggle is enabled the build-pipeline URLs are
appended in place to the caller's own array. -/
theorem construction_preserves_caller (u : UserOpts) (publicPath : String)
    (cssAssets : List String) (fn : String → String)
    (h : (resolveOpts u).webpackExtractedCss = false) :
    (singleSpaCss u publicPath cssAssets fn).callerCssUrlsAfter = u.cssUrls ∧
    (singleSpaCss u publicPath cssAssets fn).allCssUrls = u.cssUrls ∧
    (singleSpaCss u publicPath cssAssets fn).opts.cssUrls = u.cssUrls := by
  refine ⟨?_, ?_, ?_⟩ <;> simp [singleSpaCss, mergedCssUrls, h]

/-- Witness for `construction_preserves_caller` at a concrete
configuration with the webpack toggle left unset. -/
theorem construction_preserves_caller_witness :
    (resolveOpts { cssUrls := [CssUrl.str ("a.css")] }).webpackExtractedCss = false ∧
    (singleSpaCss { cssUrls := [CssUrl.str ("a.css")] } ("/p/") [("m.css")]
        (fun f => f)).callerCssUrlsAfter = [CssUrl.str ("a.css")] :=
  ⟨rfl,
    (construction_preserves_caller { cssUrls := [CssUrl.str ("a.css")] } ("/p/") [("m.css")]
        (fun f => f) rfl).1⟩

theorem mountStep_pres (opts : Opts) (url : String) (el : Element) (s : MState) (c : CssUrl)
    (hF : ∀ u i, (opts.createLink u i).href = u)
    (hfind : findStylesheet s.doc url = some el) :
    findStylesheet (mountStep opts s c).doc url = some el ∧
    (mountStep opts s c).doc.filter (isStylesheet url) = s.doc.filter (isStylesheet url) ∧
    (mountStep opts s c).queue.filter (fun p => p.2 == url) =
      s.queue.filter (fun p => p.2 == url) ∧
    (adoptedOnly url el s.outcomes → adoptedOnly url el (mountStep opts s c).outcomes) ∧
    ((extractUrl opts c).1 = url → lookupReg (mountStep opts s c).reg url = some el) ∧
    ((extractUrl opts c).1 ≠ url → lookupReg (mountStep opts s c).reg url = lookupReg s.reg url) := by
  cases hf : findStylesheet s.doc (extractUrl opts c).1 with
  | some ex =>
    rw [mountStep_found opts s c ex hf]
    refine ⟨hfind, rfl, rfl, ?_, ?_, ?_⟩
    · intro ha o ho hu
      rcases List.mem_append.mp ho with h1 | h1
      · exact ha o h1 hu
      · have h2 := List.mem_singleton.mp h1
        subst h2
        have hu2 : (extractUrl opts c).1 = url := hu
        rw [hu2] at hf
        rw [hfind] at hf
        injection hf with h3
        show UrlOutcome.adopted ex = UrlOutcome.adopted el
        rw [h3]
    · intro hu
      rw [hu] at hf
      rw [hfind] at hf
      injection hf with h3
      rw [hu, lookupReg_insert_self, h3]
    · intro hu
      exact lookupReg_insert_ne s.reg url (extractUrl opts c).1 ex fun hh => hu hh.symm
  | none =>
    rw [mountStep_new opts s c hf]
    have hne : (extractUrl opts c).1 ≠ url := by
      intro hh
      rw [hh, hfind] at hf
      cases hf
    have hnewss : isStylesheet url (opts.createLink (extractUrl opts c).1 s.fresh) = false := by
      have hnewhref : ((opts.createLink (extractUrl opts c).1 s.fresh).href == url) = false := by
        rw [hF]
        exact beq_eq_false_iff_ne.mpr hne
      simp [isStylesheet, hnewhref]
    refine ⟨?_, ?_, ?_, ?_, ?_, ?_⟩
    · exact find_append_some _ _ _ _ hfind
    · exact filter_append_false _ _ _ hnewss
    · cases ht : ((extractUrl opts c).2).truthy with
      | true =>
        simp only [ht, if_true]
        exact filter_append_false _ _ _ (beq_eq_false_iff_ne.mpr hne)
      | false => simp [ht]
    · intro ha o ho hu
      rcases List.mem_append.mp ho with h1 | h1
      · exact ha o h1 hu
      · have h2 := List.mem_singleton.mp h1
        subst h2
        have hu2 : (extractUrl opts c).1 = url := hu
        exact absurd hu2 hne
    · intro hu
      exact absurd hu hne
    · intro _
      exact lookupReg_insert_ne s.reg url (extractUrl opts c).1 _ fun hh => hne hh.symm

theorem mountGo_pres (opts : Opts) (url : String) (el : Element)
    (hF : ∀ u i, (opts.createLink u i).href = u) :
    ∀ (urls : List CssUrl) (s : MState),
      findStylesheet s.doc url = some el →
      findStylesheet (mountGo opts urls s).doc url = some el ∧
      (mountGo opts urls s).doc.filter (isStylesheet url) = s.doc.filter (isStylesheet url) ∧
      (mountGo opts urls s).queue.filter (fun p => p.2 == url) =
        s.queue.filter (fun p => p.2 == url) ∧
      (adoptedOnly url el s.outcomes → adoptedOnly url el (mountGo opts urls s).outcomes) := by
  intro urls
  induction urls with
  | nil => intro s h; exact ⟨h, rfl, rfl, fun x => x⟩
  | cons c rest ih =>
    intro s h
    rw [mountGo_cons]
    have hs := mountStep_pres opts url el s c hF h
    have hr := ih (mountStep opts s c) hs.1
    refine ⟨hr.1, ?_, ?_, ?_⟩
    · rw [hr.2.1, hs.2.1]
    · rw [hr.2.2.1, hs.2.2.1]
    · intro ha
      exact hr.2.2.2 (hs.2.2.2.1 ha)

theorem mountGo_lookup_keep (opts : Opts) (url : String) (el : Element)
    (hF : ∀ u i, (opts.createLink u i).href = u) :
    ∀ (urls : List CssUrl) (s : MState),
      findStylesheet s.doc url = some el →
      lookupReg s.reg url = some el →
      lookupReg (mountGo opts urls s).reg url = some el := by
  intro urls
  induction urls with
  | nil => intro s _ h2; exact h2
  | cons c rest ih =>
    intro s h1 h2
    rw [mountGo_cons]
    have hs := mountStep_pres opts url el s c hF h1
    by_cases hc : (extractUrl opts c).1 = url
    · exact ih (mountStep opts s c) hs.1 (hs.2.2.2.2.1 hc)
    · refine ih (mountStep opts s c) hs.1 ?_
      rw [hs.2.2.2.2.2 hc]
      exact h2

theorem mountGo_lookup (opts : Opts) (url : String) (el : Element)
    (hF : ∀ u i, (opts.createLink u i).href = u) :
    ∀ (urls : List CssUrl) (s : MState),
      findStylesheet s.doc url = some el →
      url ∈ urls.map (fun c => (extractUrl opts c).1) →
      lookupReg (mountGo opts urls s).reg url = some el := by
  intro urls
  induction urls with
  | nil =>
    intro s _ hm
    simp at hm
  | cons c rest ih =>
    intro s h1 hm
    rw [mountGo_cons]
    have hs := mountStep_pres opts url el s c hF h1
    by_cases hc : (extractUrl opts c).1 = url
    · exact mountGo_lookup_keep opts url el hF rest (mountStep opts s c) hs.1 (hs.2.2.2.2.1 hc)
    · have hm2 : url ∈ rest.map (fun c2 => (extractUrl opts c2).1) := by
        rcases List.mem_map.mp hm with ⟨c2, hc2, he⟩
        cases hc2 with
        | head => exact absurd he hc
        | tail _ ht => exact List.mem_map.mpr ⟨c2, ht, he⟩
      exact ih (mountStep opts s c) hs.1 hm2

theorem mountGo_outcomes_keys (opts : Opts) :
    ∀ (urls : List CssUrl) (s : MState),
      (mountGo opts urls s).outcomes.map (fun o => o.1) =
        s.outcomes.map (fun o => o.1) ++ urls.map (fun c => (extractUrl opts c).1) := by
  intro urls
  induction urls with
  | nil => intro s; simp [mountGo]
  | cons c rest ih =>
    intro s
    rw [mountGo_cons, ih]
    have hstep : (mountStep opts s c).outcomes.map (fun o => o.1) =
        s.outcomes.map (fun o => o.1) ++ [(extractUrl opts c).1] := by
      cases hf : findStylesheet s.doc (extractUrl opts c).1 with
      | some ex => rw [mountStep_found opts s c ex hf]; simp
      | none => rw [mountStep_new opts s c hf]; simp
    rw [hstep]
    simp

theorem mountGo_outcomes_mono (opts : Opts) :
    ∀ (urls : List CssUrl) (s : MState) (x : String × UrlOutcome),
      x ∈ s.outcomes → x ∈ (mountGo opts urls s).outcomes := by
  intro urls
  induction urls with
  | nil => intro s x h; exact h
  | cons c rest ih =>
    intro s x h
    rw [mountGo_cons]
    apply ih
    cases hf : findStylesheet s.doc (extractUrl opts c).1 with
    | some ex =>
      rw [mountStep_found opts s c ex hf]
      exact List.mem_append.mpr (Or.inl h)
    | none =>
      rw [mountStep_new opts s c hf]
      exact List.mem_append.mpr (Or.inl h)

theorem mountGo_created_wiring (opts : Opts) :
    ∀ (urls : List CssUrl) (s : MState),
      (∀ u e w, (u, UrlOutcome.created e w) ∈ s.outcomes → w = loadWiring) →
      ∀ u e w, (u, UrlOutcome.created e w) ∈ (mountGo opts urls s).outcomes → w = loadWiring := by
  intro urls
  induction urls with
  | nil => intro s h; exact h
  | cons c rest ih =>
    intro s h
    rw [mountGo_cons]
    apply ih
    intro u e w hm
    cases hf : findStylesheet s.doc (extractUrl opts c).1 with
    | some ex =>
      rw [mountStep_found opts s c ex hf] at hm
      rcases List.mem_append.mp hm with h1 | h1
      · exact h u e w h1
      · have h2 := List.mem_singleton.mp h1
        injection h2 with h3 h4
        injection h4
    | none =>
      rw [mountStep_new opts s c hf] at hm
      rcases List.mem_append.mp hm with h1 | h1
      · exact h u e w h1
      · have h2 := List.mem_singleton.mp h1
        injection h2 with h3 h4
        injection h4 with h5 h6

theorem mountGo_queue_pred (opts : Opts) (Q : Element × String → Prop) :
    ∀ (urls : List CssUrl) (s : MState),
      (∀ p ∈ s.queue, Q p) →
      (∀ c ∈ urls, ∀ i, ((extractUrl opts c).2).truthy = true →
        Q (opts.createLink (extractUrl opts c).1 i, (extractUrl opts c).1)) →
      ∀ p ∈ (mountGo opts urls s).queue, Q p := by
  intro urls
  induction urls with
  | nil => intro s hq _ p hp; exact hq p hp
  | cons c rest ih =>
    intro s hq hc
    rw [mountGo_cons]
    apply ih
    · intro p hp
      cases hf : findStylesheet s.doc (extractUrl opts c).1 with
      | some ex =>
        rw [mountStep_found opts s c ex hf] at hp
        exact hq p hp
      | none =>
        rw [mountStep_new opts s c hf] at hp
        cases ht : ((extractUrl opts c).2).truthy with
        | true =>
          simp only [ht, if_true] at hp
          rcases List.mem_append.mp hp with h1 | h1
          · exact hq p h1
          · have h2 := List.mem_singleton.mp h1
            subst h2
            exact hc c (List.mem_cons_self c rest) s.fresh ht
        | false =>
          simp only [ht] at hp
          rw [if_neg] at hp
          · exact hq p hp
          · simp
    · intro c2 h2 i ht
      exact hc c2 (List.mem_cons_of_mem c h2) i ht

theorem mountGo_queue_mem (opts : Opts) :
    ∀ (urls : List CssUrl) (s : MState) (p : Element × String),
      p ∈ (mountGo opts urls s).queue →
      p ∈ s.queue ∨
        ((p.2, UrlOutcome.created p.1 loadWiring) ∈ (mountGo opts urls s).outcomes ∧
          ∃ c, c ∈ urls ∧ (extractUrl opts c).1 = p.2 ∧ ((extractUrl opts c).2).truthy = true) := by
  intro urls
  induction urls with
  | nil => intro s p hp; exact Or.inl hp
  | cons c rest ih =>
    intro s p hp
    rw [mountGo_cons] at hp ⊢
    rcases ih (mountStep opts s c) p hp with h1 | h1
    · cases hf : findStylesheet s.doc (extractUrl opts c).1 with
      | some ex =>
        rw [mountStep_found opts s c ex hf] at h1
        exact Or.inl h1
      | none =>
        rw [mountStep_new opts s c hf] at h1
        cases ht : ((extractUrl opts c).2).truthy with
        | false =>
          simp only [ht] at h1
          rw [if_neg] at h1
          · exact Or.inl h1
          · simp
        | true =>
          simp only [ht, if_true] at h1
          rcases List.mem_append.mp h1 with h2 | h2
          · exact Or.inl h2
          · have h3 := List.mem_singleton.mp h2
            subst h3
            right
            constructor
            · apply mountGo_outcomes_mono
              rw [mountStep_new opts s c hf]
              apply List.mem_append.mpr
              right
              exact List.mem_singleton.mpr rfl
            · exact ⟨c, List.mem_cons_self c rest, rfl, ht⟩
    · rcases h1 with ⟨hmem, c2, hc2, he, ht2⟩
      exact Or.inr ⟨hmem, c2, List.mem_cons_of_mem c hc2, he, ht2⟩

/-- Claim C1: for every URL in the configured list that already has a
stylesheet link element in the document when mount is called, mount
adopts that element: it records it in the registry under the URL, every
outcome for that URL is immediate adoption of that element (and there is
an outcome for it), no second element for that URL is inserted into the
document, and nothing for that URL is appended to the pending-unmount
queue.  The factory hypothesis `hF` states that the configured factory
puts the given URL in the `href` attribute, as the default factory
does. -/
theorem mount_adopts_existing (opts : Opts) (urls : List CssUrl) (s : MState)
    (url : String) (el : Element)
    (hF : ∀ u i, (opts.createLink u i).href = u)
    (hfound : findStylesheet s.doc url = some el)
    (hmem : url ∈ urls.map (fun c => (extractUrl opts c).1)) :
    lookupReg (mount opts urls s).reg url = some el ∧
    adoptedOnly url el (mount opts urls s).outcomes ∧
    url ∈ (mount opts urls s).outcomes.map (fun o => o.1) ∧
    (mount opts urls s).doc.filter (isStylesheet url) = s.doc.filter (isStylesheet url) ∧
    (mount opts urls s).queue.filter (fun p => p.2 == url) =
      s.queue.filter (fun p => p.2 == url) := by
  have h0 : findStylesheet ({ s with outcomes := [] } : MState).doc url = some el := hfound
  have hpres := mountGo_pres opts url el hF urls { s with outcomes := [] } h0
  refine ⟨?_, ?_, ?_, ?_, ?_⟩
  · exact mountGo_lookup opts url el hF urls { s with outcomes := [] } h0 hmem
  · exact hpres.2.2.2 fun o ho => absurd ho (List.not_mem_nil o)
  · show url ∈ (mountGo opts urls { s with outcomes := [] }).outcomes.map (fun o => o.1)
    rw [mountGo_outcomes_keys opts urls { s with outcomes := [] }]
    simpa using hmem
  · exact hpres.2.1
  · exact hpres.2.2.1

/-- Witness for `mount_adopts_existing`: a document that already holds a
stylesheet element for the only configured URL. -/
theorem mount_adopts_existing_witness :
    findStylesheet c1St.doc ("a.css") = some c1El ∧
    lookupReg (mount (mkOpts [CssUrl.str ("a.css")]) [CssUrl.str ("a.css")] c1St).reg ("a.css") =
      some c1El ∧
    adoptedOnly ("a.css") c1El
      (mount (mkOpts [CssUrl.str ("a.css")]) [CssUrl.str ("a.css")] c1St).outcomes ∧
    ("a.css") ∈ (mount (mkOpts [CssUrl.str ("a.css")]) [CssUrl.str ("a.css")]
      c1St).outcomes.map (fun o => o.1) ∧
    (mount (mkOpts [CssUrl.str ("a.css")]) [CssUrl.str ("a.css")] c1St).doc.filter
      (isStylesheet ("a.css")) = c1St.doc.filter (isStylesheet ("a.css")) ∧
    (mount (mkOpts [CssUrl.str ("a.css")]) [CssUrl.str ("a.css")] c1St).queue.filter
      (fun p => p.2 == "a.css") = c1St.queue.filter (fun p => p.2 == "a.css") := by
  have h := mount_adopts_existing (mkOpts [CssUrl.str ("a.css")]) [CssUrl.str ("a.css")] c1St
    ("a.css") c1El (fun u i => rfl) (by decide) (by decide)
  exact ⟨by decide, h.1, h.2.1, h.2.2.1, h.2.2.2.1, h.2.2.2.2⟩

/-- Claim C3: every element the mount stage creates has its per-URL
promise wired to resolve on the load event only, with no rejection
wiring at all; consequently, if the load event never fires on that
element, that URL's promise never settles and neither does the composite
mount promise. -/
theorem mount_load_only_settlement (opts : Opts) (urls : List CssUrl) (s : MState)
    (u : String) (e : Element) (w : Wiring)
    (hm : (u, UrlOutcome.created e w) ∈ (mount opts urls s).outcomes) :
    w = loadWiring ∧
    ∀ fired : Nat → List String, (fired e.id).contains ("load") = false →
      outcomeSettled fired (u, UrlOutcome.created e w) = false ∧
      mountSettled fired (mount opts urls s).outcomes = false := by
  have hw : w = loadWiring := by
    apply mountGo_created_wiring opts urls { s with outcomes := [] } ?_ u e w hm
    intro u2 e2 w2 h2
    exact absurd h2 (List.not_mem_nil _)
  subst hw
  refine ⟨rfl, ?_⟩
  intro fired hf
  have hf2 : ("load") ∉ fired e.id := by simpa using hf
  have hset : outcomeSettled fired (u, UrlOutcome.created e loadWiring) = false := by
    simp [outcomeSettled, settledBy, loadWiring, hf2]
  exact ⟨hset, all_false_of_mem hm hset⟩

/-- Witness for `mount_load_only_settlement`: one freshly created
element on which only an error event ever fires. -/
theorem mount_load_only_settlement_witness :
    outcomeSettled (fun _ => [("error")]) (("a.css"), UrlOutcome.created c3El loadWiring) = false ∧
    mountSettled (fun _ => [("error")])
      (mount (mkOpts [CssUrl.str ("a.css")]) [CssUrl.str ("a.css")] emptyMState).outcomes =
      false :=
  (mount_load_only_settlement (mkOpts [CssUrl.str ("a.css")]) [CssUrl.str ("a.css")] emptyMState
      ("a.css") c3El loadWiring (by decide)).2 (fun _ => [("error")]) (by decide)

/-- Claim C4: a pair enters the pending-unmount queue during mount only
when the adapter itself created the element (a created outcome for it is
on record) and the extracted per-URL `shouldUnmount` flag is truthy; in
particular, any new queue entry differs from a URL all of whose source
references carry an explicitly false flag, and the whole queue stays
free of such a URL. -/
theorem queue_entries_created_truthy (opts : Opts) (urls : List CssUrl) (s : MState)
    (p : Element × String) (url : String)
    (hp : p ∈ (mountGo opts urls s).queue) (hnp : p ∉ s.queue)
    (hsrc : ∀ c ∈ urls, (extractUrl opts c).1 = url → (extractUrl opts c).2 = BVal.ff)
    (hq : ∀ q ∈ s.queue, q.2 ≠ url) :
    createdTruthySource opts urls (mountGo opts urls s).outcomes p ∧
    p.2 ≠ url ∧
    (mountGo opts urls s).queue.all (fun q => !(q.2 == url)) = true := by
  rcases mountGo_queue_mem opts urls s p hp with h | h
  · exact absurd h hnp
  · rcases h with ⟨hmem, c, hc, he, ht⟩
    have hpne : p.2 ≠ url := by
      intro hpu
      have hff := hsrc c hc (by rw [he]; exact hpu)
      rw [hff] at ht
      exact absurd ht (by decide)
    refine ⟨⟨⟨loadWiring, hmem⟩, c, hc, he, ht⟩, hpne, ?_⟩
    apply all_ne_of_forall
    apply mountGo_queue_pred opts (fun q => q.2 ≠ url) urls s hq
    intro c2 hc2 i ht2 heq2
    have hff2 := hsrc c2 hc2 heq2
    rw [hff2] at ht2
    exact absurd ht2 (by decide)

/-- Witness for `queue_entries_created_truthy`: mounting one plain
reference and one record with an explicitly false flag queues exactly
the element created for the plain reference. -/
theorem queue_entries_created_truthy_witness :
    c4P ∈ (mountGo (mkOpts c4Urls) c4Urls emptyMState).queue ∧
    (createdTruthySource (mkOpts c4Urls) c4Urls
        (mountGo (mkOpts c4Urls) c4Urls emptyMState).outcomes c4P ∧
      c4P.2 ≠ ("b.css") ∧
      (mountGo (mkOpts c4Urls) c4Urls emptyMState).queue.all
        (fun q => !(q.2 == "b.css")) = true) :=
  ⟨by decide,
    queue_entries_created_truthy (mkOpts c4Urls) c4Urls emptyMState c4P ("b.css")
      (by decide) (by decide) (by decide) (by decide)⟩

/-- Claim C10: a structured record whose `shouldUnmount` property is
present but `undefined` makes the extractor return `undefined` (the
property is detected with `hasOwnProperty`) rather than the
configuration-level default; `undefined` is falsy, so such a URL is
never added to the pending-unmount queue even when the
configuration-level default is true. -/
theorem undef_flag_never_queued (opts : Opts) (urls : List CssUrl) (s : MState) (url : String)
    (hdef : opts.shouldUnmount = true)
    (hsrc : ∀ c ∈ urls, (extractUrl opts c).1 = url → c = CssUrl.obj url (SUProp.given BVal.undef))
    (hq : ∀ q ∈ s.queue, q.2 ≠ url) :
    extractUrl opts (CssUrl.obj url (SUProp.given BVal.undef)) = (url, BVal.undef) ∧
    BVal.undef ≠ boolToBVal opts.shouldUnmount ∧
    BVal.truthy BVal.undef = false ∧
    (mountGo opts urls s).queue.all (fun q => !(q.2 == url)) = true := by
  refine ⟨rfl, ?_, rfl, ?_⟩
  · rw [hdef]
    decide
  · apply all_ne_of_forall
    apply mountGo_queue_pred opts (fun q => q.2 ≠ url) urls s hq
    intro c hc i ht heq
    have hcq := hsrc c hc heq
    rw [hcq] at ht
    simp [extractUrl, BVal.truthy] at ht

/-- Witness for `undef_flag_never_queued`: one record with
`shouldUnmount` present but `undefined`, under the default (true)
configuration-level flag. -/
theorem undef_flag_never_queued_witness :
    (mkOpts c10Urls).shouldUnmount = true ∧
    (extractUrl (mkOpts c10Urls) (CssUrl.obj ("b.css") (SUProp.given BVal.undef)) =
        (("b.css"), BVal.undef) ∧
      BVal.undef ≠ boolToBVal (mkOpts c10Urls).shouldUnmount ∧
      BVal.truthy BVal.undef = false ∧
      (mountGo (mkOpts c10Urls) c10Urls emptyMState).queue.all
        (fun q => !(q.2 == "b.css")) = true) :=
  ⟨rfl,
    undef_flag_never_queued (mkOpts c10Urls) c10Urls emptyMState ("b.css") rfl
      (by decide) (by decide)⟩

end SingleSpaCss
